import Mathlib

/-!
Verification of the data-preparation and faceted-filtering pipeline of the
shopping-dashboard application (`src/app.py`).

The program is a pandas/Streamlit script.  We embed it at two levels:

* a **typed record model** (`Record`, `FilterSpec`, `filtered_df`, the KPI
  computations) for the filter, derivation and aggregation code
  (`app.py` lines 93, 102-137, 151-153, 173);
* a **grid model** (`RawTable`: a header row plus rows of cells) together
  with a CSV serializer/parser for the load / rename / export code
  (`app.py` lines 76-91, 142-146).

Pandas cells are modelled by `Value`: an integer, a boolean, a string, or
the missing marker `vNaN` (pandas `NaN`).  The pandas hash-based operations
used by the program (`duplicated`, `isin`, `nunique`, `unique`) treat two
`NaN` cells as identical, which is exactly the behaviour of decidable
equality on `Value` with a single `vNaN` constructor; `nunique` additionally
drops `NaN` (its `dropna=True` default), which we model explicitly.
-/

namespace ShoppingDashboard

/-- A pandas cell: integer, boolean, string, or the missing marker `NaN`.
Floating-point cells other than `NaN` are outside the model; every concrete
table we evaluate uses only integers, booleans and strings. -/
inductive Value where
  | vInt : Int → Value
  | vBool : Bool → Value
  | vStr : String → Value
  | vNaN : Value
deriving DecidableEq, Repr

/-- One row of the canonical (renamed) table, with the columns the program
reads: `Customer_ID`, `Season`, `Product_Category`, `Payment_Method`,
`Sales`, `Age`, and the derived `Returning_Customer` flag (line 93 of
`app.py`; `false` until the deriver sets it).  Categorical cells keep the
generic `Value` type (they may be `NaN`); `Sales` is numeric (modelled as a
rational, pandas reads it as a number) and `Age` an integer. -/
structure Record where
  customer_id : Value
  season : Value
  product_category : Value
  payment_method : Value
  sales : ℚ
  age : Int
  returning : Bool
deriving DecidableEq, Repr

/-- The user's filter selections (`app.py` lines 102-128): one multiselect
list per categorical facet, and the integer `(min_sales, max_sales)` pair
produced by the sales-range slider. -/
structure FilterSpec where
  seasons : List Value
  categories : List Value
  payments : List Value
  minSales : Int
  maxSales : Int
deriving DecidableEq, Repr

/-- The facet filter (`app.py` lines 131-137):

    filtered_df = df[(df["Season"].isin(season_filter)) &
                     (df["Product_Category"].isin(category_filter)) &
                     (df["Payment_Method"].isin(payment_filter)) &
                     (df["Sales"] >= min_sales) & (df["Sales"] <= max_sales)]

Boolean-mask selection on a data frame keeps, in order, exactly the rows
whose conjunction of facet tests is true. -/
def filtered_df (t : List Record) (spec : FilterSpec) : List Record :=
  t.filter fun r =>
    spec.seasons.contains r.season &&
    spec.categories.contains r.product_category &&
    spec.payments.contains r.payment_method &&
    decide ((spec.minSales : ℚ) ≤ r.sales) &&
    decide (r.sales ≤ (spec.maxSales : ℚ))

/-- Helper for `deriveTable`: walks the rows in table order carrying the
list of `Customer_ID` cells already seen, exactly the semantics of pandas
`df.duplicated("Customer_ID")` with its default `keep="first"`: a row is
marked `True` iff an equal `Customer_ID` cell occurs in a strictly earlier
row (pandas hashing counts two `NaN` cells as equal here). -/
def deriveAux (seen : List Value) : List Record → List Record
  | [] => []
  | r :: rs =>
      { r with returning := seen.contains r.customer_id } ::
        deriveAux (r.customer_id :: seen) rs

/-- The deriver (`app.py` line 93):
`df["Returning_Customer"] = df.duplicated("Customer_ID")`. -/
def deriveTable (t : List Record) : List Record := deriveAux [] t

/-- KPI `total_customers = filtered_df["Customer_ID"].nunique()`
(`app.py` line 151): the number of distinct non-`NaN` `Customer_ID`
cells (`nunique` drops `NaN` by default). -/
def total_customers (t : List Record) : ℕ :=
  ((t.map Record.customer_id).filter (fun v => v ≠ Value.vNaN)).dedup.length

/-- KPI `total_sales = filtered_df["Sales"].sum()` (`app.py` line 152). -/
def total_sales (t : List Record) : ℚ :=
  (t.map Record.sales).sum

/-- KPI `returning_customers = filtered_df["Returning_Customer"].sum()`
(`app.py` line 153): summing a boolean column counts the `True` rows. -/
def returning_customers (t : List Record) : ℕ :=
  t.countP Record.returning

/-- The returning-customer percentage `(returning_customers/total_customers)*100`
shown by the fourth KPI card (`app.py` line 173).  Both operands are machine
integers under numpy semantics, so `/` is numpy true division: when the
denominator is `0` it produces a non-finite float (`nan` or `inf`) with at
most a `RuntimeWarning` — it never raises an exception.  We model the
division totally, with `none` standing for that non-finite sentinel. -/
def returningSharePct (t : List Record) : Option ℚ :=
  if total_customers t = 0 then none
  else some (((returning_customers t : ℚ) / (total_customers t : ℚ)) * 100)

/-- First-seen-order list of the distinct cells of a column, as produced by
pandas `Series.unique()` (`app.py` lines 104, 111, 118: the multiselect
options and defaults). -/
def uniqueVals (l : List Value) : List Value :=
  l.foldl (fun acc v => if acc.contains v then acc else acc ++ [v]) []

/-- `monthly_sales = filtered_df.groupby("Season")["Sales"].sum()`
(`app.py` line 183): one entry per distinct season with the summed sales.
Pandas emits the groups sorted by key; we keep first-seen order, which has
the same key set and sums (only those, and emptiness, are used below). -/
def monthly_sales (t : List Record) : List (Value × ℚ) :=
  (uniqueVals (t.map Record.season)).map fun s =>
    (s, ((t.filter fun r => r.season == s).map Record.sales).sum)

/-- `cat_count = filtered_df["Product_Category"].value_counts()`
(`app.py` line 194): one entry per distinct category with its row count.
Pandas sorts by descending count; we keep first-seen order, which has the
same key set and counts. -/
def cat_count (t : List Record) : List (Value × ℕ) :=
  (uniqueVals (t.map Record.product_category)).map fun c =>
    (c, t.countP fun r => r.product_category == c)

/-! ### Sample data used by witnesses and counterexamples -/

/-- A sample canonical record. -/
def recWinter : Record :=
  ⟨Value.vStr "C-1", Value.vStr "Winter", Value.vStr "Clothing",
    Value.vStr "Cash", 10, 30, false⟩

/-- A second sample record, same customer as `recWinter`, different facets. -/
def recSummer : Record :=
  ⟨Value.vStr "C-1", Value.vStr "Summer", Value.vStr "Shoes",
    Value.vStr "Card", 25, 30, false⟩

/-- A spec that accepts both sample records. -/
def specWide : FilterSpec :=
  ⟨[Value.vStr "Winter", Value.vStr "Summer"],
   [Value.vStr "Clothing", Value.vStr "Shoes"],
   [Value.vStr "Cash", Value.vStr "Card"], 0, 100⟩

/-- A spec that accepts only `recSummer` (by sales range). -/
def specHigh : FilterSpec :=
  ⟨[Value.vStr "Winter", Value.vStr "Summer"],
   [Value.vStr "Clothing", Value.vStr "Shoes"],
   [Value.vStr "Cash", Value.vStr "Card"], 20, 100⟩

/-- A spec whose season facet is the empty selection. -/
def specNoSeason : FilterSpec := ⟨[], specWide.categories, specWide.payments, 0, 100⟩

/-! ### C1: conjunctive facet-membership semantics of the filter -/

/-- **C1.** A record is in `filtered_df t spec` iff it is a record of `t`
whose `Season`, `Product_Category` and `Payment_Method` cells belong to the
corresponding allowed lists and whose `Sales` lies in the inclusive
`[min_sales, max_sales]` range; moreover an empty selection for any facet
makes the result empty. -/
theorem filter_mem_iff_and_empty_facet (t : List Record) (spec : FilterSpec) (r : Record) :
    (r ∈ filtered_df t spec ↔
      r ∈ t ∧ r.season ∈ spec.seasons ∧ r.product_category ∈ spec.categories ∧
        r.payment_method ∈ spec.payments ∧
        (spec.minSales : ℚ) ≤ r.sales ∧ r.sales ≤ (spec.maxSales : ℚ)) ∧
    ((spec.seasons = [] ∨ spec.categories = [] ∨ spec.payments = []) →
      filtered_df t spec = []) := by
  constructor
  · simp [filtered_df, List.mem_filter, and_assoc]
  · intro h
    rcases h with h | h | h <;>
      simp [filtered_df, List.filter_eq_nil_iff, h]

/-- Witness for C1 at concrete inputs. -/
theorem filter_mem_iff_and_empty_facet_witness :
    recWinter ∈ filtered_df [recWinter] specWide ∧
      filtered_df [recWinter] specNoSeason = [] :=
  ⟨(filter_mem_iff_and_empty_facet [recWinter] specWide recWinter).1.mpr (by decide),
   (filter_mem_iff_and_empty_facet [recWinter] specNoSeason recWinter).2 (Or.inl rfl)⟩

/-! ### C7: idempotence of the filter -/

/-- **C7.** Filtering twice with the same `FilterSpec` equals filtering
once: every record kept by the first pass satisfies the mask again. -/
theorem filter_idempotent (t : List Record) (spec : FilterSpec) :
    filtered_df (filtered_df t spec) spec = filtered_df t spec :=
  List.filter_eq_self.mpr fun _ ha => (List.mem_filter.mp ha).2

/-! ### C8: monotonicity of the filter in the spec -/

/-- **C8.** Widening the allowed-value lists and the numeric range can only
keep more records: the filtered record count never decreases. -/
theorem filter_monotone_in_spec (t : List Record) (s s' : FilterSpec)
    (hseason : s.seasons ⊆ s'.seasons) (hcat : s.categories ⊆ s'.categories)
    (hpay : s.payments ⊆ s'.payments)
    (hmin : s'.minSales ≤ s.minSales) (hmax : s.maxSales ≤ s'.maxSales) :
    (filtered_df t s).length ≤ (filtered_df t s').length := by
  apply List.Sublist.length_le
  apply List.monotone_filter_right
  intro r hr
  simp only [Bool.and_eq_true, decide_eq_true_eq, List.contains, List.elem_iff] at hr ⊢
  obtain ⟨⟨⟨⟨h1, h2⟩, h3⟩, h4⟩, h5⟩ := hr
  refine ⟨⟨⟨⟨hseason h1, hcat h2⟩, hpay h3⟩, ?_⟩, ?_⟩
  · exact le_trans (by exact_mod_cast hmin) h4
  · exact le_trans h5 (by exact_mod_cast hmax)

/-- Witness for C8: widening `specHigh` to `specWide` does not lose records. -/
theorem filter_monotone_in_spec_witness :
    (filtered_df [recWinter, recSummer] specHigh).length ≤
      (filtered_df [recWinter, recSummer] specWide).length :=
  filter_monotone_in_spec [recWinter, recSummer] specHigh specWide
    (by decide) (by decide) (by decide) (by decide) (by decide)

/-! ### C3: the derived returning-customer flag -/

/-- A record with a second, distinct customer id. -/
def recOther : Record :=
  ⟨Value.vStr "C-2", Value.vStr "Winter", Value.vStr "Shoes",
    Value.vStr "Cash", 5, 40, false⟩

theorem deriveAux_length (seen : List Value) (t : List Record) :
    (deriveAux seen t).length = t.length := by
  induction t generalizing seen with
  | nil => rfl
  | cons r rs ih => simp [deriveAux, ih]

theorem deriveAux_flag (t : List Record) (seen : List Value) (i : ℕ)
    (h : i < t.length) :
    (((deriveAux seen t).getD i recWinter).returning = true ↔
      ((t.getD i recWinter).customer_id ∈ seen ∨
        (t.getD i recWinter).customer_id ∈ (t.take i).map Record.customer_id)) := by
  induction t generalizing seen i with
  | nil => simp at h
  | cons r rs ih =>
    cases i with
    | zero =>
      simp [deriveAux, List.contains, List.elem_iff]
    | succ j =>
      have hj : j < rs.length := Nat.lt_of_succ_lt_succ h
      simp only [deriveAux, List.getD_cons_succ, List.take_succ_cons, List.map_cons,
        List.mem_cons]
      rw [ih (r.customer_id :: seen) j hj]
      simp only [List.mem_cons]
      tauto

/-- **C3.** In the derived table, a record's `Returning_Customer` flag is
`true` iff its `Customer_ID` cell occurs in a strictly earlier record of the
table's current order (so the first occurrence of any id is `false`); and on
the spec's example — one customer at positions 1 and 3, another at
position 2 — the derived flags are `[false, false, true]`. -/
theorem returning_flag_iff_seen_earlier :
    (∀ (t : List Record) (i : ℕ), i < t.length →
      (((deriveTable t).getD i recWinter).returning = true ↔
        (t.getD i recWinter).customer_id ∈ (t.take i).map Record.customer_id)) ∧
    (deriveTable [recWinter, recOther, recSummer]).map Record.returning =
      [false, false, true] := by
  constructor
  · intro t i h
    rw [deriveTable, deriveAux_flag t [] i h]
    simp
  · decide

/-- Witness for C3: the flag of the third record of the example is `true`
because its customer id occurs earlier. -/
theorem returning_flag_iff_seen_earlier_witness :
    ((deriveTable [recWinter, recOther, recSummer]).getD 2 recWinter).returning = true :=
  (returning_flag_iff_seen_earlier.1 [recWinter, recOther, recSummer] 2 (by decide)).mpr
    (by decide)

/-! ### C4: degenerate aggregation never faults -/

/-- **C4.** The returning-share KPI is guarded in the model: whenever the
distinct-customer count is `0` the share is the non-finite sentinel `none`
(numpy division of machine integers by zero yields `nan`/`inf` with a
warning, never an exception), and on the empty filtered table every
aggregate of the program is well-formed and zero/empty. -/
theorem aggregates_zero_on_empty :
    (∀ t : List Record, total_customers t = 0 → returningSharePct t = none) ∧
    total_customers ([] : List Record) = 0 ∧
    total_sales ([] : List Record) = 0 ∧
    returning_customers ([] : List Record) = 0 ∧
    monthly_sales ([] : List Record) = [] ∧
    cat_count ([] : List Record) = [] ∧
    returningSharePct ([] : List Record) = none := by
  refine ⟨fun t h => by simp [returningSharePct, h], ?_, ?_, ?_, ?_, ?_, ?_⟩ <;> rfl

/-- Witness for C4 at the empty table. -/
theorem aggregates_zero_on_empty_witness :
    returningSharePct ([] : List Record) = none :=
  aggregates_zero_on_empty.1 [] rfl

/-! ### C10: returning count = record count − distinct customers -/

theorem deriveAux_map_cid (seen : List Value) (t : List Record) :
    (deriveAux seen t).map Record.customer_id = t.map Record.customer_id := by
  induction t generalizing seen with
  | nil => rfl
  | cons r rs ih => simp [deriveAux, ih]

theorem deriveAux_countP (t : List Record) (seen : List Value) :
    (deriveAux seen t).countP Record.returning +
      ((t.map Record.customer_id).toFinset \ seen.toFinset).card = t.length := by
  induction t generalizing seen with
  | nil => simp [deriveAux]
  | cons r rs ih =>
    simp only [deriveAux, List.countP_cons, List.map_cons, List.toFinset_cons,
      List.length_cons]
    by_cases hc : r.customer_id ∈ seen
    · have hcont : seen.contains r.customer_id = true := by
        simpa [List.contains, List.elem_iff] using hc
      have hins : insert r.customer_id (rs.map Record.customer_id).toFinset \ seen.toFinset =
          (rs.map Record.customer_id).toFinset \ seen.toFinset := by
        ext v
        simp only [Finset.mem_sdiff, Finset.mem_insert, List.mem_toFinset]
        constructor
        · rintro ⟨rfl | hv, hs⟩
          · exact absurd hc hs
          · exact ⟨hv, hs⟩
        · exact fun ⟨hv, hs⟩ => ⟨Or.inr hv, hs⟩
      have := ih (r.customer_id :: seen)
      rw [List.toFinset_cons, Finset.insert_eq_self.mpr (List.mem_toFinset.mpr hc)] at this
      rw [hins, hcont]
      simp only [if_true]
      omega
    · have hcont : seen.contains r.customer_id = false := by
        simp [List.contains, List.elem_iff, hc]
      have hcard : (insert r.customer_id (rs.map Record.customer_id).toFinset \
            seen.toFinset).card =
          ((rs.map Record.customer_id).toFinset \
            (r.customer_id :: seen).toFinset).card + 1 := by
        have h1 : insert r.customer_id (rs.map Record.customer_id).toFinset \ seen.toFinset =
            insert r.customer_id
              (((rs.map Record.customer_id).toFinset \ seen.toFinset).erase r.customer_id) := by
          ext v
          simp only [Finset.mem_sdiff, Finset.mem_insert, Finset.mem_erase,
            List.mem_toFinset]
          constructor
          · rintro ⟨rfl | hv, hs⟩
            · exact Or.inl rfl
            · by_cases hvc : v = r.customer_id
              · exact Or.inl hvc
              · exact Or.inr ⟨hvc, hv, hs⟩
          · rintro (rfl | ⟨hvc, hv, hs⟩)
            · exact ⟨Or.inl rfl, hc⟩
            · exact ⟨Or.inr hv, hs⟩
        have h2 : ((rs.map Record.customer_id).toFinset \ seen.toFinset).erase r.customer_id =
            (rs.map Record.customer_id).toFinset \ (r.customer_id :: seen).toFinset := by
          ext v
          simp only [Finset.mem_sdiff, Finset.mem_erase, List.toFinset_cons,
            Finset.mem_insert, List.mem_toFinset]
          tauto
        rw [h1, Finset.card_insert_of_not_mem (Finset.not_mem_erase _ _), h2]
      have := ih (r.customer_id :: seen)
      rw [hcont, hcard]
      simp only [Bool.false_eq_true, if_false]
      omega

/-- **C10.** For a derived table whose records all have a (non-missing)
`Customer_ID`, the number of `Returning_Customer = true` records equals the
record count minus the number of distinct customers; the identity can fail
on a filtered view, whose flags were computed before filtering (concrete
instance in the second conjunct). -/
theorem returning_count_eq_length_sub_distinct :
    (∀ t : List Record, (∀ r ∈ t, r.customer_id ≠ Value.vNaN) →
      returning_customers (deriveTable t) =
        (deriveTable t).length - total_customers (deriveTable t)) ∧
    returning_customers (filtered_df (deriveTable [recWinter, recSummer]) specHigh) ≠
      (filtered_df (deriveTable [recWinter, recSummer]) specHigh).length -
        total_customers (filtered_df (deriveTable [recWinter, recSummer]) specHigh) := by
  constructor
  · intro t h
    have hmap : (deriveTable t).map Record.customer_id = t.map Record.customer_id :=
      deriveAux_map_cid [] t
    have hlen : (deriveTable t).length = t.length := deriveAux_length [] t
    have hcount := deriveAux_countP t []
    have hdt : deriveTable t = deriveAux [] t := rfl
    rw [← hdt] at hcount
    rw [List.toFinset_nil, Finset.sdiff_empty, List.card_toFinset] at hcount
    have htot : total_customers (deriveTable t) = (t.map Record.customer_id).dedup.length := by
      rw [total_customers, hmap]
      congr 1
      congr 1
      apply List.filter_eq_self.mpr
      intro v hv
      rcases List.mem_map.mp hv with ⟨r, hr, rfl⟩
      simpa using h r hr
    have hret : returning_customers (deriveTable t) =
        (deriveTable t).countP Record.returning := rfl
    rw [hret, htot, hlen]
    omega
  · decide

/-- Witness for C10 on a concrete two-record table with a repeated customer. -/
theorem returning_count_eq_length_sub_distinct_witness :
    returning_customers (deriveTable [recWinter, recOther, recSummer]) =
      (deriveTable [recWinter, recOther, recSummer]).length -
        total_customers (deriveTable [recWinter, recOther, recSummer]) :=
  returning_count_eq_length_sub_distinct.1 [recWinter, recOther, recSummer] (by decide)

/-! ### C6: the default FilterSpec -/

/-- Python `int(x)` on a number: truncation toward zero.  On an exact
rational `num/den` (`den > 0`) this is T-division of the numerator by the
denominator, which is `Int.div`. -/
def pyInt (q : ℚ) : Int := Int.tdiv q.num (q.den : Int)

/-- `series.min()` on a nonempty column (pandas `df["Sales"].min()`,
`app.py` line 125); the `[]` case never arises in the program (pandas
would yield `NaN` there and `int(NaN)` would raise). -/
def colMin (l : List ℚ) : ℚ :=
  match l with
  | [] => 0
  | x :: xs => xs.foldl min x

/-- `series.max()` on a nonempty column (`app.py` line 126). -/
def colMax (l : List ℚ) : ℚ :=
  match l with
  | [] => 0
  | x :: xs => xs.foldl max x

/-- The default filter selections (`app.py` lines 102-128): every observed
value of each categorical facet, and the slider range
`(int(df["Sales"].min()), int(df["Sales"].max()))`. -/
def default_spec (t : List Record) : FilterSpec :=
  ⟨uniqueVals (t.map Record.season),
   uniqueVals (t.map Record.product_category),
   uniqueVals (t.map Record.payment_method),
   pyInt (colMin (t.map Record.sales)),
   pyInt (colMax (t.map Record.sales))⟩

theorem mem_uniqueVals_aux (l : List Value) :
    ∀ (acc : List Value) (v : Value),
      (v ∈ l.foldl (fun acc v => if acc.contains v then acc else acc ++ [v]) acc ↔
        v ∈ acc ∨ v ∈ l) := by
  induction l with
  | nil => simp
  | cons a l ih =>
    intro acc v
    by_cases hc : acc.contains a = true
    · have ha : a ∈ acc := by simpa [List.contains, List.elem_iff] using hc
      simp only [List.foldl_cons, hc, if_true, ih, List.mem_cons]
      constructor
      · rintro (hv | hv)
        · exact Or.inl hv
        · exact Or.inr (Or.inr hv)
      · rintro (hv | rfl | hv)
        · exact Or.inl hv
        · exact Or.inl ha
        · exact Or.inr hv
    · have hc' : acc.contains a = false := by simpa using hc
      simp only [List.foldl_cons, hc', Bool.false_eq_true, if_false, ih,
        List.mem_append, List.mem_singleton, List.mem_cons]
      tauto

theorem mem_uniqueVals (v : Value) (l : List Value) : v ∈ uniqueVals l ↔ v ∈ l := by
  rw [uniqueVals, mem_uniqueVals_aux]
  simp

theorem foldl_min_le (xs : List ℚ) : ∀ (x y : ℚ), y ∈ x :: xs → xs.foldl min x ≤ y := by
  induction xs with
  | nil =>
    intro x y hy
    rw [List.mem_singleton] at hy
    rw [hy]
    exact le_refl x
  | cons a xs ih =>
    intro x y hy
    rcases List.mem_cons.mp hy with h | h
    · rw [h]
      exact le_trans (ih (min x a) _ (List.mem_cons_self _ _)) (min_le_left _ _)
    · rcases List.mem_cons.mp h with h2 | h2
      · rw [h2]
        exact le_trans (ih (min x a) _ (List.mem_cons_self _ _)) (min_le_right _ _)
      · exact ih (min x a) y (List.mem_cons_of_mem _ h2)

theorem foldl_max_le (xs : List ℚ) : ∀ (x y : ℚ), y ∈ x :: xs → y ≤ xs.foldl max x := by
  induction xs with
  | nil =>
    intro x y hy
    rw [List.mem_singleton] at hy
    rw [hy]
    exact le_refl x
  | cons a xs ih =>
    intro x y hy
    rcases List.mem_cons.mp hy with h | h
    · rw [h]
      exact le_trans (le_max_left _ _) (ih (max x a) _ (List.mem_cons_self _ _))
    · rcases List.mem_cons.mp h with h2 | h2
      · rw [h2]
        exact le_trans (le_max_right _ _) (ih (max x a) _ (List.mem_cons_self _ _))
      · exact ih (max x a) y (List.mem_cons_of_mem _ h2)

theorem foldl_min_mem (xs : List ℚ) : ∀ x, xs.foldl min x ∈ x :: xs := by
  induction xs with
  | nil => intro x; simp
  | cons a xs ih =>
    intro x
    have := ih (min x a)
    rcases List.mem_cons.mp this with h | h
    · rcases min_choice x a with hm | hm <;> rw [List.foldl_cons, h, hm]
      · exact List.mem_cons_self _ _
      · exact List.mem_cons_of_mem _ (List.mem_cons_self _ _)
    · exact List.mem_cons_of_mem _ (List.mem_cons_of_mem _ h)

theorem foldl_max_mem (xs : List ℚ) : ∀ x, xs.foldl max x ∈ x :: xs := by
  induction xs with
  | nil => intro x; simp
  | cons a xs ih =>
    intro x
    have := ih (max x a)
    rcases List.mem_cons.mp this with h | h
    · rcases max_choice x a with hm | hm <;> rw [List.foldl_cons, h, hm]
      · exact List.mem_cons_self _ _
      · exact List.mem_cons_of_mem _ (List.mem_cons_self _ _)
    · exact List.mem_cons_of_mem _ (List.mem_cons_of_mem _ h)

theorem pyInt_intCast (n : ℤ) : pyInt (n : ℚ) = n := by
  rw [pyInt, Rat.num_intCast, Rat.den_intCast]
  exact Int.tdiv_one n

/-- **C6 (amended).** The categorical defaults are the full observed value
lists, so they pass every record; the numeric defaults are the *truncated*
observed bounds `int(min), int(max)`, so the default filter returns the
whole table whenever every sales amount is an integer (in particular it is
not the identity in general — see the counterexample). -/
theorem default_filter_returns_table (t : List Record)
    (h : ∀ r ∈ t, ∃ n : ℤ, r.sales = (n : ℚ)) :
    filtered_df t (default_spec t) = t := by
  apply List.filter_eq_self.mpr
  intro r hr
  have hs : r.sales ∈ t.map Record.sales := List.mem_map_of_mem Record.sales hr
  obtain ⟨x, xs, hxs⟩ := List.exists_cons_of_ne_nil (List.ne_nil_of_mem hs)
  have hminmem : colMin (t.map Record.sales) ∈ t.map Record.sales := by
    rw [hxs, colMin]; exact foldl_min_mem xs x
  have hmaxmem : colMax (t.map Record.sales) ∈ t.map Record.sales := by
    rw [hxs, colMax]; exact foldl_max_mem xs x
  obtain ⟨rmin, hrmin, hrmineq⟩ := List.mem_map.mp hminmem
  obtain ⟨rmax, hrmax, hrmaxeq⟩ := List.mem_map.mp hmaxmem
  obtain ⟨nmin, hnmin⟩ := h rmin hrmin
  obtain ⟨nmax, hnmax⟩ := h rmax hrmax
  have hminle : colMin (t.map Record.sales) ≤ r.sales := by
    rw [hxs, colMin]; exact foldl_min_le xs x r.sales (hxs ▸ hs)
  have hmaxge : r.sales ≤ colMax (t.map Record.sales) := by
    rw [hxs, colMax]; exact foldl_max_le xs x r.sales (hxs ▸ hs)
  have hpmin : ((default_spec t).minSales : ℚ) = colMin (t.map Record.sales) := by
    show (pyInt (colMin (t.map Record.sales)) : ℚ) = _
    rw [← hrmineq, hnmin, pyInt_intCast]
  have hpmax : ((default_spec t).maxSales : ℚ) = colMax (t.map Record.sales) := by
    show (pyInt (colMax (t.map Record.sales)) : ℚ) = _
    rw [← hrmaxeq, hnmax, pyInt_intCast]
  simp only [default_spec, Bool.and_eq_true, decide_eq_true_eq, List.contains,
    List.elem_iff]
  refine ⟨⟨⟨⟨?_, ?_⟩, ?_⟩, ?_⟩, ?_⟩
  · exact (mem_uniqueVals _ _).mpr (List.mem_map_of_mem Record.season hr)
  · exact (mem_uniqueVals _ _).mpr (List.mem_map_of_mem Record.product_category hr)
  · exact (mem_uniqueVals _ _).mpr (List.mem_map_of_mem Record.payment_method hr)
  · exact le_of_eq_of_le hpmin hminle
  · exact le_of_le_of_eq hmaxge hpmax.symm

/-- Witness for C6 (amended) on a concrete integral-sales table. -/
theorem default_filter_returns_table_witness :
    filtered_df [recWinter, recSummer] (default_spec [recWinter, recSummer]) =
      [recWinter, recSummer] :=
  default_filter_returns_table [recWinter, recSummer] (by
    intro r hr
    rcases List.mem_cons.mp hr with rfl | hr
    · exact ⟨10, by decide⟩
    · rcases List.mem_cons.mp hr with rfl | hr
      · exact ⟨25, by decide⟩
      · simp at hr)

/-- The rational 21/2 = 10.5, written with an explicit numerator and
denominator so that kernel evaluation never normalizes a division. -/
def tenPointFive : ℚ := ⟨21, 2, by decide, by decide⟩

/-- A record whose sales amount is not an integer (10.5 USD). -/
def recHalf : Record :=
  ⟨Value.vStr "C-3", Value.vStr "Winter", Value.vStr "Clothing",
    Value.vStr "Cash", tenPointFive, 30, false⟩

/-- **C6 counterexample.** On a table whose only record has sales `10.5`,
the code's default spec truncates the slider maximum to `10`, so the
default filter drops the record: it does *not* return the whole table. -/
theorem default_filter_not_identity :
    filtered_df [recHalf] (default_spec [recHalf]) ≠ [recHalf] := by
  decide

/-! ### The grid model: a data frame as a header row plus rows of cells -/

/-- A pandas data frame as `read_csv` produces it: a list of column names
and a list of rows of cells. -/
structure RawTable where
  header : List String
  rows : List (List Value)
deriving DecidableEq, Repr

/-- Python `str.strip()` on a column name: removes leading and trailing
whitespace characters (written over the character list so that concrete
instances evaluate). -/
def stripName (s : String) : String :=
  String.mk (((s.data.dropWhile Char.isWhitespace).reverse.dropWhile
    Char.isWhitespace).reverse)

/-- `df.columns = df.columns.str.strip()` (`app.py` line 80): trims
whitespace from every column name, touching no cell. -/
def stripColumns (t : RawTable) : RawTable :=
  ⟨t.header.map stripName, t.rows⟩

/-- The fixed source-to-canonical rename mapping (`app.py` lines 86-91);
unmapped names pass through unchanged. -/
def renameColumn (s : String) : String :=
  if s = "Category" then "Product_Category"
  else if s = "Payment Method" then "Payment_Method"
  else if s = "Purchase Amount (USD)" then "Sales"
  else if s = "Customer ID" then "Customer_ID"
  else s

/-- `df.rename(columns={...})` (`app.py` lines 86-91): renames column
names, touching no cell. -/
def renameColumns (t : RawTable) : RawTable :=
  ⟨t.header.map renameColumn, t.rows⟩

/-- The whole normalization applied to a loaded table: strip the column
names (`app.py` line 80), then rename them (lines 86-91).  This is all the
program does between parsing and derivation: there is no dropna or other
row-dropping step. -/
def normalizeTable (t : RawTable) : RawTable :=
  renameColumns (stripColumns t)

/-! ### C2: incomplete rows and normalization -/

/-- A raw table with one row whose `Customer ID` cell is missing. -/
def sampleIncomplete : RawTable :=
  ⟨["Customer ID", "Season"], [[Value.vNaN, Value.vStr "Winter"]]⟩

/-- **C2 counterexample.** The claim "no record survives normalization with
a missing value" is false: this concrete incomplete row survives. -/
theorem normalization_keeps_missing_cell :
    ¬ (∀ row ∈ (normalizeTable sampleIncomplete).rows, Value.vNaN ∉ row) := by
  decide

/-- **C2 (amended).** Normalization only strips and renames column names:
it preserves the rows verbatim, so a row with a missing value in any field
survives normalization unchanged. -/
theorem normalization_preserves_rows (t : RawTable) (row : List Value)
    (hrow : row ∈ t.rows) (_hmiss : Value.vNaN ∈ row) :
    row ∈ (normalizeTable t).rows ∧ (normalizeTable t).rows = t.rows :=
  ⟨hrow, rfl⟩

/-- Witness for C2 (amended) on the concrete incomplete table. -/
theorem normalization_preserves_rows_witness :
    [Value.vNaN, Value.vStr "Winter"] ∈ (normalizeTable sampleIncomplete).rows :=
  (normalization_preserves_rows sampleIncomplete [Value.vNaN, Value.vStr "Winter"]
    (by decide) (by decide)).1

/-! ### C9: zero eligible source files -/

/-- The single fatal loading failure of the program: `load_data` builds
`csv_files = [f for f in os.listdir() if f.endswith(".csv")]` and indexes
`csv_files[0]` (`app.py` lines 78-79); with zero eligible files that index
raises an uncaught, fatal exception surfaced to the operator.  The spec
names this condition `MissingSourceError`. -/
inductive LoadError where
  | missingSource
deriving DecidableEq, Repr

/-- Python `f.endswith(suf)`: the last `len(suf)` characters equal `suf`
(written over character lists so that concrete instances evaluate). -/
def endsWithStr (suf s : String) : Bool :=
  decide (s.data.drop (s.data.length - suf.data.length) = suf.data)

/-- `load_data` (`app.py` lines 76-81) over a directory listing: each entry
is a file name with the table its bytes parse to.  Keeps the `.csv`-named
files, takes the first, and strips its column names; with no eligible file
it fails fatally. -/
def load_data (files : List (String × RawTable)) : Except LoadError RawTable :=
  match files.filter (fun f => endsWithStr ".csv" f.1) with
  | [] => Except.error LoadError.missingSource
  | f :: _ => Except.ok (stripColumns f.2)

/-- `nunique` on a column of cells: distinct non-`NaN` cells. -/
def nuniqueVals (l : List Value) : ℕ :=
  ((l.filter (fun v => v ≠ Value.vNaN)).dedup).length

/-- A column of a data frame selected by name (`df["Customer_ID"]`). -/
def getCol (t : RawTable) (name : String) : List Value :=
  match t.header.findIdx? (fun s => s == name) with
  | none => []
  | some j => t.rows.map (fun row => row.getD j Value.vNaN)

/-- The first aggregate the pipeline computes after loading
(`total_customers`, `app.py` line 151), run end-to-end from the directory
listing: it is only ever computed on a successfully loaded table. -/
def pipeline_total_customers (files : List (String × RawTable)) : Except LoadError ℕ :=
  (load_data files).map fun df =>
    nuniqueVals (getCol (renameColumns df) "Customer_ID")

/-- **C9.** With zero eligible `.csv` source files, loading fails with the
fatal missing-source error and the pipeline computes no aggregate. -/
theorem load_fails_without_csv (files : List (String × RawTable))
    (h : ∀ f ∈ files, endsWithStr ".csv" f.1 = false) :
    load_data files = Except.error LoadError.missingSource ∧
    pipeline_total_customers files = Except.error LoadError.missingSource := by
  have hfil : files.filter (fun f => endsWithStr ".csv" f.1) = [] :=
    List.filter_eq_nil_iff.mpr fun f hf => by simp [h f hf]
  constructor
  · rw [load_data, hfil]
  · rw [pipeline_total_customers, load_data, hfil]
    rfl

/-- Witness for C9: a directory with a single non-CSV file. -/
theorem load_fails_without_csv_witness :
    load_data [("readme.txt", RawTable.mk [] [])] = Except.error LoadError.missingSource :=
  (load_fails_without_csv [("readme.txt", RawTable.mk [] [])] (by decide)).1

/-! ### C5: the CSV export / re-parse round trip

`app.py` line 144 exports `filtered_df.to_csv(index=False)` and the claim
re-normalizes (rename skipped) and re-parses that byte stream with
`pd.read_csv` semantics.  The byte stream is modelled as a character list.
`to_csv` writes the header line and one line per row, each terminated by
a newline, cells joined by commas; an integer cell prints its decimal
digits, a boolean prints `True`/`False`, a string prints verbatim and a
missing cell prints as the empty field.  (Quoting of cells containing
separator characters is not modelled; the round-trip theorem restricts
string cells to separator-free text.)  `read_csv` splits the stream into
non-blank lines and cells and infers one dtype per column: an all-integer
column becomes integers, an all-boolean-form column becomes booleans, and
any other column keeps its cells as strings, with the empty field read as
`NaN`. -/

/-- The decimal digit character for `d` (`0 ≤ d ≤ 9`). -/
def digitChar (d : ℕ) : Char := Char.ofNat (48 + d)

/-- Most-significant-first decimal digits of `n`; `fuel` bounds the
recursion and any `fuel > n` gives the digits of `n` (empty for `0`). -/
def natReprAux : ℕ → ℕ → List Char
  | 0, _ => []
  | fuel + 1, n => if n = 0 then [] else natReprAux fuel (n / 10) ++ [digitChar (n % 10)]

/-- Python `str(n)` for a natural number. -/
def natRepr (n : ℕ) : List Char := if n = 0 then ['0'] else natReprAux (n + 1) n

/-- Python `str(i)` for an integer. -/
def intRepr (i : Int) : List Char :=
  if i < 0 then '-' :: natRepr i.natAbs else natRepr i.natAbs

/-- The characters of Python `str(True)`. -/
def trueChars : List Char := ['T', 'r', 'u', 'e']

/-- The characters of Python `str(False)`. -/
def falseChars : List Char := ['F', 'a', 'l', 's', 'e']

/-- The cell texts `pd.read_csv` recognizes as booleans. -/
def boolForms : List (List Char) :=
  (["True", "TRUE", "true", "False", "FALSE", "false"].map String.data)

/-- The boolean cell texts read as `True`. -/
def trueForms : List (List Char) := (["True", "TRUE", "true"].map String.data)

/-- How `to_csv` prints one cell. -/
def cellChars : Value → List Char
  | Value.vInt n => intRepr n
  | Value.vBool b => if b then trueChars else falseChars
  | Value.vStr s => s.data
  | Value.vNaN => []

/-- Join pieces with a separator character (no terminator). -/
def joinSep (sep : Char) : List (List Char) → List Char
  | [] => []
  | [x] => x
  | x :: xs => x ++ sep :: joinSep sep xs

/-- Split at every occurrence of the separator; inverse of `joinSep` on
separator-free pieces. -/
def splitSep (sep : Char) : List Char → List (List Char)
  | [] => [[]]
  | c :: cs =>
      if c = sep then [] :: splitSep sep cs
      else
        match splitSep sep cs with
        | [] => [[c]]
        | cell :: rest => (c :: cell) :: rest

/-- `filtered_df.to_csv(index=False)` (`app.py` line 144): the header line
followed by one line per row, every line newline-terminated. -/
def to_csv (t : RawTable) : List Char :=
  ((joinSep ',' (t.header.map String.data) ::
      t.rows.map (fun row => joinSep ',' (row.map cellChars))).map
    (fun l => l ++ ['\n'])).flatten

/-- Is `c` a decimal digit? -/
def isDigitChar (c : Char) : Bool := 48 ≤ c.toNat && c.toNat ≤ 57

/-- The value of a digit character. -/
def digitVal (c : Char) : ℕ := c.toNat - 48

/-- Parse an unsigned decimal integer (digits only, at least one). -/
def parseNatChars (cs : List Char) : Option ℕ :=
  if cs.isEmpty || !cs.all isDigitChar then none
  else some (cs.foldl (fun a c => 10 * a + digitVal c) 0)

/-- Drop leading and trailing space characters, as Python `int(...)` and
the `read_csv` numeric converter tolerate them around a number. -/
def trimSpaces (cs : List Char) : List Char :=
  ((cs.dropWhile (fun c => c == ' ')).reverse.dropWhile (fun c => c == ' ')).reverse

/-- Parse an optional sign followed by digits. -/
def parseSigned : List Char → Option Int
  | [] => none
  | c :: ds =>
      if c = '-' then (parseNatChars ds).map (fun n => -(n : Int))
      else if c = '+' then (parseNatChars ds).map (fun n => (n : Int))
      else (parseNatChars (c :: ds)).map (fun n => (n : Int))

/-- Parse a cell as a (signed) decimal integer, Python `int(text)`-style:
optional surrounding spaces, an optional sign, then digits. -/
def parseIntChars (cs : List Char) : Option Int :=
  parseSigned (trimSpaces cs)

/-- Does this cell text read as an integer? -/
def isIntCell (cs : List Char) : Bool := (parseIntChars cs).isSome

/-- Does this cell text read as a boolean? -/
def isBoolCell (cs : List Char) : Bool := boolForms.contains cs

/-- Is column `j` of the cell grid all-integer? -/
def colIsInt (grid : List (List (List Char))) (j : ℕ) : Bool :=
  grid.all fun row => isIntCell (row.getD j [])

/-- Is column `j` of the cell grid all-boolean? -/
def colIsBool (grid : List (List (List Char))) (j : ℕ) : Bool :=
  grid.all fun row => isBoolCell (row.getD j [])

/-- `read_csv` column dtype inference applied to one cell of column `j`:
an all-integer column becomes integers, an all-boolean-form column becomes
booleans, and any other column keeps its cells as text with the empty
field read as `NaN`.  (Float inference is outside the model; the
round-trip theorem's hypotheses keep every column in the modelled
fragment.) -/
def typeCell (grid : List (List (List Char))) (j : ℕ) (c : List Char) : Value :=
  if colIsInt grid j then Value.vInt ((parseIntChars c).getD 0)
  else if colIsBool grid j then Value.vBool (trueForms.contains c)
  else if c.isEmpty then Value.vNaN
  else Value.vStr (String.mk c)

/-- `read_csv` on the non-blank lines: the first is the header, the rest
are split into cells and typed column-wise. -/
def parseLinesCsv : List (List Char) → RawTable
  | [] => ⟨[], []⟩
  | h :: rs =>
      ⟨(splitSep ',' h).map String.mk,
       (rs.map (splitSep ',')).map fun row =>
         (List.range (splitSep ',' h).length).map fun j =>
           typeCell (rs.map (splitSep ',')) j (row.getD j [])⟩

/-- `pd.read_csv` on a byte stream: split it into non-blank lines
(`skip_blank_lines=True`) and parse them. -/
def parse_csv (s : List Char) : RawTable :=
  parseLinesCsv ((splitSep '\n' s).filter (fun l => !l.isEmpty))

/-- Re-normalizing the exported stream with the rename step skipped
(`app.py` lines 76-81 without lines 86-91) and re-parsing it. -/
def csvRoundTrip (t : RawTable) : RawTable := stripColumns (parse_csv (to_csv t))

/-- A canonical table whose only record has the text customer id `"007"`. -/
def table007 : RawTable := ⟨["Customer_ID"], [[Value.vStr "007"]]⟩

/-- **C5 counterexample.** Exporting and re-parsing does not reproduce
`table007`: the id column of the exported stream is all digits, so
`read_csv` re-types it as the integer `7`, losing the leading zeros. -/
theorem csv_roundtrip_not_identity : csvRoundTrip table007 ≠ table007 := by
  decide

theorem splitSep_sepFree (sep : Char) (x : List Char) (hx : ∀ c ∈ x, c ≠ sep) :
    splitSep sep x = [x] := by
  induction x with
  | nil => rfl
  | cons c cs ih =>
    have hc : c ≠ sep := hx c (List.mem_cons_self _ _)
    have hcs := ih fun d hd => hx d (List.mem_cons_of_mem _ hd)
    simp only [splitSep, if_neg hc, hcs]

theorem splitSep_append (sep : Char) (x rest : List Char) (hx : ∀ c ∈ x, c ≠ sep) :
    splitSep sep (x ++ sep :: rest) = x :: splitSep sep rest := by
  induction x with
  | nil =>
    rw [List.nil_append]
    simp [splitSep]
  | cons c cs ih =>
    have hc : c ≠ sep := hx c (List.mem_cons_self _ _)
    have hcs := ih fun d hd => hx d (List.mem_cons_of_mem _ hd)
    rw [List.cons_append]
    simp only [splitSep, if_neg hc, hcs]

theorem splitSep_joinSep (sep : Char) (xss : List (List Char)) (hne : xss ≠ [])
    (hfree : ∀ x ∈ xss, ∀ c ∈ x, c ≠ sep) :
    splitSep sep (joinSep sep xss) = xss := by
  induction xss with
  | nil => exact absurd rfl hne
  | cons x xs ih =>
    cases xs with
    | nil => exact splitSep_sepFree sep x (hfree x (List.mem_cons_self _ _))
    | cons y ys =>
      have hx : ∀ c ∈ x, c ≠ sep := hfree x (List.mem_cons_self _ _)
      have hrest : ∀ z ∈ y :: ys, ∀ c ∈ z, c ≠ sep :=
        fun z hz => hfree z (List.mem_cons_of_mem _ hz)
      simp only [joinSep]
      rw [splitSep_append sep x _ hx, ih (by simp) hrest]

theorem mem_joinSep (sep : Char) (xss : List (List Char)) (c : Char)
    (hc : c ∈ joinSep sep xss) : c = sep ∨ ∃ x ∈ xss, c ∈ x := by
  induction xss with
  | nil => simp [joinSep] at hc
  | cons x xs ih =>
    cases xs with
    | nil =>
      simp only [joinSep] at hc
      exact Or.inr ⟨x, List.mem_cons_self _ _, hc⟩
    | cons y ys =>
      simp only [joinSep] at hc
      rcases List.mem_append.mp hc with h | h
      · exact Or.inr ⟨x, List.mem_cons_self _ _, h⟩
      · rcases List.mem_cons.mp h with h | h
        · exact Or.inl h
        · rcases ih h with h | ⟨z, hz, hcz⟩
          · exact Or.inl h
          · exact Or.inr ⟨z, List.mem_cons_of_mem _ hz, hcz⟩

theorem joinSep_ne_nil (sep : Char) (x : List Char) (xs : List (List Char))
    (hx : x ≠ []) : joinSep sep (x :: xs) ≠ [] := by
  cases xs with
  | nil => exact hx
  | cons y ys =>
    simp only [joinSep]
    cases x with
    | nil => simp
    | cons c cs => simp

theorem flatten_lines_eq (ls : List (List Char)) :
    ((ls.map (fun l => l ++ ['\n'])).flatten) = joinSep '\n' (ls ++ [[]]) := by
  induction ls with
  | nil => rfl
  | cons x ls ih =>
    rw [List.map_cons, List.flatten_cons, ih]
    cases hl : ls ++ [[]] with
    | nil => exact absurd hl (by simp)
    | cons z zs =>
      rw [List.cons_append, hl]
      simp only [joinSep]
      simp

/-- Characters that never collide with the CSV structure: not a comma,
newline, carriage return or double quote. -/
def cleanChar (c : Char) : Bool :=
  !(c == ',' || c == '\n' || c == '\r' || c == '"')

theorem digitChar_spec (d : ℕ) (h : d < 10) :
    isDigitChar (digitChar d) = true ∧ digitVal (digitChar d) = d ∧
    digitChar d ≠ ' ' ∧ digitChar d ≠ '-' ∧ digitChar d ≠ '+' ∧
    cleanChar (digitChar d) = true := by
  interval_cases d <;> exact (by decide)

theorem cleanChar_ne (c : Char) (h : cleanChar c = true) : c ≠ ',' ∧ c ≠ '\n' := by
  constructor
  · rintro rfl; exact absurd h (by decide)
  · rintro rfl; exact absurd h (by decide)

theorem natReprAux_mem (fuel : ℕ) : ∀ n, ∀ c ∈ natReprAux fuel n,
    ∃ d, d < 10 ∧ c = digitChar d := by
  induction fuel with
  | zero => intro n c hc; simp [natReprAux] at hc
  | succ fuel ih =>
    intro n c hc
    rw [natReprAux] at hc
    by_cases hz : n = 0
    · rw [if_pos hz] at hc; simp at hc
    · rw [if_neg hz] at hc
      rcases List.mem_append.mp hc with h | h
      · exact ih (n / 10) c h
      · rw [List.mem_singleton] at h
        exact ⟨n % 10, Nat.mod_lt _ (by norm_num), h⟩

theorem natReprAux_foldl (fuel : ℕ) : ∀ n, n < fuel → ∀ a : ℕ,
    (natReprAux fuel n).foldl (fun a c => 10 * a + digitVal c) a =
      a * 10 ^ (natReprAux fuel n).length + n := by
  induction fuel with
  | zero => intro n hn a; exact absurd hn (Nat.not_lt_zero n)
  | succ fuel ih =>
    intro n hn a
    by_cases hz : n = 0
    · subst hz
      rw [natReprAux, if_pos rfl]
      simp
    · rw [natReprAux, if_neg hz]
      have hdiv : n / 10 < fuel := by
        have h1 : n / 10 < n := Nat.div_lt_self (Nat.pos_of_ne_zero hz) (by norm_num)
        omega
      rw [List.foldl_append]
      simp only [List.foldl_cons, List.foldl_nil]
      rw [ih (n / 10) hdiv a,
        (digitChar_spec (n % 10) (Nat.mod_lt _ (by norm_num))).2.1,
        List.length_append, List.length_singleton, pow_succ, ← mul_assoc]
      omega

theorem natRepr_digits (m : ℕ) : ∀ c ∈ natRepr m, ∃ d, d < 10 ∧ c = digitChar d := by
  intro c hc
  rw [natRepr] at hc
  by_cases hz : m = 0
  · rw [if_pos hz, List.mem_singleton] at hc
    exact ⟨0, by norm_num, by rw [hc]; rfl⟩
  · rw [if_neg hz] at hc
    exact natReprAux_mem _ _ c hc

theorem natRepr_ne_nil (m : ℕ) : natRepr m ≠ [] := by
  rw [natRepr]
  by_cases hz : m = 0
  · rw [if_pos hz]; simp
  · rw [if_neg hz, natReprAux, if_neg hz]; simp

theorem parseNat_natRepr (m : ℕ) : parseNatChars (natRepr m) = some m := by
  have hdig : (natRepr m).all isDigitChar = true := by
    rw [List.all_eq_true]
    intro c hc
    obtain ⟨d, hd, rfl⟩ := natRepr_digits m c hc
    exact (digitChar_spec d hd).1
  have hne : natRepr m ≠ [] := natRepr_ne_nil m
  have hem : (natRepr m).isEmpty = false := by
    cases hcase : natRepr m with
    | nil => exact absurd hcase hne
    | cons c cs => rfl
  rw [parseNatChars, hem, hdig]
  simp only [Bool.not_true, Bool.or_false, Bool.false_eq_true, if_false]
  by_cases hz : m = 0
  · subst hz; rfl
  · congr 1
    rw [natRepr, if_neg hz] at *
    rw [natReprAux_foldl (m + 1) m (Nat.lt_succ_self m) 0]
    simp

theorem trimSpaces_no_space (cs : List Char) (h : ∀ c ∈ cs, c ≠ ' ') :
    trimSpaces cs = cs := by
  have hdw : ∀ (l : List Char), (∀ c ∈ l, c ≠ ' ') →
      l.dropWhile (fun c => c == ' ') = l := by
    intro l hl
    cases l with
    | nil => rfl
    | cons c cs =>
      rw [List.dropWhile_cons]
      have hb : (c == ' ') = false := by
        rw [beq_eq_false_iff_ne]
        exact hl c (List.mem_cons_self _ _)
      rw [hb]
      simp
  rw [trimSpaces, hdw cs h, hdw _ (fun c hc => h c (List.mem_reverse.mp hc)),
    List.reverse_reverse]

theorem parseInt_intRepr (i : Int) : parseIntChars (intRepr i) = some i := by
  by_cases hneg : i < 0
  · rw [intRepr, if_pos hneg]
    have htrim : trimSpaces ('-' :: natRepr i.natAbs) = '-' :: natRepr i.natAbs := by
      apply trimSpaces_no_space
      intro c hc
      rcases List.mem_cons.mp hc with rfl | hc
      · decide
      · obtain ⟨d, hd, rfl⟩ := natRepr_digits _ c hc
        exact (digitChar_spec d hd).2.2.1
    rw [parseIntChars, htrim, parseSigned, if_pos rfl, parseNat_natRepr]
    show some (-(i.natAbs : Int)) = some i
    congr 1
    omega
  · rw [intRepr, if_neg hneg]
    obtain ⟨d, ds, hds⟩ := List.exists_cons_of_ne_nil (natRepr_ne_nil i.natAbs)
    have hd : ∃ k, k < 10 ∧ d = digitChar k := by
      apply natRepr_digits i.natAbs
      rw [hds]
      exact List.mem_cons_self _ _
    obtain ⟨k, hk, rfl⟩ := hd
    have htrim : trimSpaces (natRepr i.natAbs) = natRepr i.natAbs := by
      apply trimSpaces_no_space
      intro c hc
      obtain ⟨e, he, rfl⟩ := natRepr_digits _ c hc
      exact (digitChar_spec e he).2.2.1
    rw [parseIntChars, htrim, hds, parseSigned,
      if_neg (digitChar_spec k hk).2.2.2.1, if_neg (digitChar_spec k hk).2.2.2.2.1,
      ← hds, parseNat_natRepr]
    show some ((i.natAbs : Int)) = some i
    congr 1
    omega

/-- Characters that can occur in a numeric cell (digits, sign, decimal
point, exponent marker, surrounding spaces). -/
def numericChar (c : Char) : Bool :=
  isDigitChar c || c == '-' || c == '+' || c == '.' || c == 'e' || c == 'E' || c == ' '

/-- Cell texts `pd.read_csv` reads as missing (its default NA values). -/
def naForms : List (List Char) :=
  (["", "#N/A", "N/A", "NA", "NULL", "NaN", "None", "n/a", "nan", "null",
    "<NA>"].map String.data)

/-- A string cell that survives the CSV trip verbatim: nonempty, contains a
character outside the numeric alphabet (so no int/float re-typing), does
not parse as an integer, is not a boolean or NA form, and contains no
separator/quote character. -/
def plainStrCell (s : String) : Bool :=
  !s.data.isEmpty && s.data.any (fun c => !numericChar c) &&
  (parseIntChars s.data).isNone && !boolForms.contains s.data &&
  !naForms.contains s.data && s.data.all cleanChar

/-- Is the cell an integer? -/
def isIntVal : Value → Bool
  | Value.vInt _ => true
  | _ => false

/-- Is the cell a boolean? -/
def isBoolVal : Value → Bool
  | Value.vBool _ => true
  | _ => false

/-- Is the cell a CSV-stable string? -/
def isPlainStrVal : Value → Bool
  | Value.vStr s => plainStrCell s
  | _ => false

/-- A column whose dtype survives the CSV trip: all integers, all
booleans, or all CSV-stable strings. -/
def goodCol (col : List Value) : Bool :=
  col.all isIntVal || col.all isBoolVal || col.all isPlainStrVal

theorem stringMk_data (s : String) : String.mk s.data = s := by
  cases s
  rfl

theorem isIntCell_intRepr (n : Int) : isIntCell (intRepr n) = true := by
  rw [isIntCell, parseInt_intRepr]
  rfl

theorem plainStr_spec (s : String) (h : plainStrCell s = true) :
    s.data ≠ [] ∧ isIntCell s.data = false ∧ isBoolCell s.data = false ∧
    s.data.isEmpty = false ∧ s.data.all cleanChar = true := by
  rw [plainStrCell] at h
  simp only [Bool.and_eq_true, Bool.not_eq_true'] at h
  obtain ⟨⟨⟨⟨⟨hne, _⟩, hint⟩, hbool⟩, _⟩, hclean⟩ := h
  refine ⟨?_, ?_, ?_, hne, hclean⟩
  · intro h0
    rw [h0] at hne
    exact absurd hne (by decide)
  · rw [isIntCell]
    cases hp : parseIntChars s.data with
    | none => rfl
    | some n => rw [hp] at hint; exact absurd hint (by simp)
  · rw [isBoolCell, hbool]

theorem cellChars_good (v : Value)
    (h : isIntVal v = true ∨ isBoolVal v = true ∨ isPlainStrVal v = true) :
    cellChars v ≠ [] ∧ ∀ c ∈ cellChars v, cleanChar c = true := by
  cases v with
  | vInt n =>
    constructor
    · rw [cellChars, intRepr]
      by_cases hn : n < 0
      · rw [if_pos hn]; simp
      · rw [if_neg hn]; exact natRepr_ne_nil _
    · intro c hc
      rw [cellChars, intRepr] at hc
      by_cases hn : n < 0
      · rw [if_pos hn] at hc
        rcases List.mem_cons.mp hc with rfl | hc
        · decide
        · obtain ⟨d, hd, rfl⟩ := natRepr_digits _ c hc
          exact (digitChar_spec d hd).2.2.2.2.2
      · rw [if_neg hn] at hc
        obtain ⟨d, hd, rfl⟩ := natRepr_digits _ c hc
        exact (digitChar_spec d hd).2.2.2.2.2
  | vBool b =>
    cases b
    · exact ⟨by decide, by decide⟩
    · exact ⟨by decide, by decide⟩
  | vStr s =>
    have hps : plainStrCell s = true := by
      rcases h with h | h | h
      · simp [isIntVal] at h
      · simp [isBoolVal] at h
      · rw [isPlainStrVal] at h; exact h
    obtain ⟨hne, _, _, _, hclean⟩ := plainStr_spec s hps
    refine ⟨hne, ?_⟩
    rw [List.all_eq_true] at hclean
    exact fun c hc => hclean c hc
  | vNaN =>
    rcases h with h | h | h <;> exact absurd h (by decide)

theorem getD_map_cellChars (row : List Value) (j : ℕ) (hj : j < row.length) :
    (row.map cellChars).getD j [] = cellChars (row.getD j Value.vNaN) := by
  rw [List.getD_eq_getElem _ _ (by simpa using hj), List.getD_eq_getElem _ _ hj,
    List.getElem_map]

theorem isIntVal_exists (v : Value) (h : isIntVal v = true) : ∃ n, v = Value.vInt n := by
  cases v with
  | vInt n => exact ⟨n, rfl⟩
  | vBool b => simp [isIntVal] at h
  | vStr s => simp [isIntVal] at h
  | vNaN => simp [isIntVal] at h

theorem isBoolVal_exists (v : Value) (h : isBoolVal v = true) : ∃ b, v = Value.vBool b := by
  cases v with
  | vInt n => simp [isBoolVal] at h
  | vBool b => exact ⟨b, rfl⟩
  | vStr s => simp [isBoolVal] at h
  | vNaN => simp [isBoolVal] at h

theorem isPlainStrVal_exists (v : Value) (h : isPlainStrVal v = true) :
    ∃ s, v = Value.vStr s ∧ plainStrCell s = true := by
  cases v with
  | vInt n => simp [isPlainStrVal] at h
  | vBool b => simp [isPlainStrVal] at h
  | vStr s => exact ⟨s, rfl, by rw [isPlainStrVal] at h; exact h⟩
  | vNaN => simp [isPlainStrVal] at h

theorem isIntCell_cellBool (b : Bool) : isIntCell (cellChars (Value.vBool b)) = false := by
  cases b <;> decide

theorem isBoolCell_cellBool (b : Bool) : isBoolCell (cellChars (Value.vBool b)) = true := by
  cases b <;> decide

theorem trueForms_cellBool (b : Bool) :
    trueForms.contains (cellChars (Value.vBool b)) = b := by
  cases b <;> decide

theorem typeCell_roundtrip (t : RawTable)
    (hrect : ∀ row ∈ t.rows, row.length = t.header.length)
    (hcols : ∀ j, j < t.header.length →
      goodCol (t.rows.map (fun row => row.getD j Value.vNaN)) = true)
    (j : ℕ) (hj : j < t.header.length) (row : List Value) (hrow : row ∈ t.rows) :
    typeCell (t.rows.map (fun row => row.map cellChars)) j
      (cellChars (row.getD j Value.vNaN)) = row.getD j Value.vNaN := by
  have hgd : ∀ row' ∈ t.rows, (row'.map cellChars).getD j [] =
      cellChars (row'.getD j Value.vNaN) := by
    intro row' hrow'
    apply getD_map_cellChars
    rw [hrect row' hrow']
    exact hj
  have hcol := hcols j hj
  rw [goodCol, Bool.or_eq_true, Bool.or_eq_true] at hcol
  rcases hcol with (hint | hbool) | hstr
  · have hval := List.all_eq_true.mp hint _ (List.mem_map_of_mem _ hrow)
    obtain ⟨n, hn⟩ := isIntVal_exists _ hval
    have hcint : colIsInt (t.rows.map (fun row => row.map cellChars)) j = true := by
      rw [colIsInt, List.all_eq_true]
      intro x hx
      obtain ⟨row', hrow', rfl⟩ := List.mem_map.mp hx
      rw [hgd row' hrow']
      obtain ⟨m, hm⟩ := isIntVal_exists _
        (List.all_eq_true.mp hint _ (List.mem_map_of_mem _ hrow'))
      rw [hm]
      exact isIntCell_intRepr m
    rw [typeCell, if_pos hcint, hn]
    show Value.vInt ((parseIntChars (intRepr n)).getD 0) = Value.vInt n
    rw [parseInt_intRepr]
    rfl
  · have hval := List.all_eq_true.mp hbool _ (List.mem_map_of_mem _ hrow)
    obtain ⟨b, hb⟩ := isBoolVal_exists _ hval
    have hcint : colIsInt (t.rows.map (fun row => row.map cellChars)) j = false := by
      rw [colIsInt]
      cases hcase : (t.rows.map (fun row => row.map cellChars)).all
          (fun row => isIntCell (row.getD j [])) with
      | false => rfl
      | true =>
        have hthis := List.all_eq_true.mp hcase _ (List.mem_map_of_mem _ hrow)
        rw [hgd row hrow, hb, isIntCell_cellBool] at hthis
        exact absurd hthis (by simp)
    have hcbool : colIsBool (t.rows.map (fun row => row.map cellChars)) j = true := by
      rw [colIsBool, List.all_eq_true]
      intro x hx
      obtain ⟨row', hrow', rfl⟩ := List.mem_map.mp hx
      rw [hgd row' hrow']
      obtain ⟨b', hb'⟩ := isBoolVal_exists _
        (List.all_eq_true.mp hbool _ (List.mem_map_of_mem _ hrow'))
      rw [hb']
      exact isBoolCell_cellBool b'
    rw [typeCell, if_neg (by rw [hcint]; simp), if_pos hcbool, hb, trueForms_cellBool]
  · have hval := List.all_eq_true.mp hstr _ (List.mem_map_of_mem _ hrow)
    obtain ⟨s, hs, hps⟩ := isPlainStrVal_exists _ hval
    obtain ⟨hne, hint', hbool', hemp, _⟩ := plainStr_spec s hps
    have hcint : colIsInt (t.rows.map (fun row => row.map cellChars)) j = false := by
      rw [colIsInt]
      cases hcase : (t.rows.map (fun row => row.map cellChars)).all
          (fun row => isIntCell (row.getD j [])) with
      | false => rfl
      | true =>
        have hthis := List.all_eq_true.mp hcase _ (List.mem_map_of_mem _ hrow)
        rw [hgd row hrow, hs, show cellChars (Value.vStr s) = s.data from rfl,
          hint'] at hthis
        exact absurd hthis (by simp)
    have hcbool : colIsBool (t.rows.map (fun row => row.map cellChars)) j = false := by
      rw [colIsBool]
      cases hcase : (t.rows.map (fun row => row.map cellChars)).all
          (fun row => isBoolCell (row.getD j [])) with
      | false => rfl
      | true =>
        have hthis := List.all_eq_true.mp hcase _ (List.mem_map_of_mem _ hrow)
        rw [hgd row hrow, hs, show cellChars (Value.vStr s) = s.data from rfl,
          hbool'] at hthis
        exact absurd hthis (by simp)
    rw [typeCell, if_neg (by rw [hcint]; simp), if_neg (by rw [hcbool]; simp), hs,
      show cellChars (Value.vStr s) = s.data from rfl,
      if_neg (by rw [hemp]; simp), stringMk_data]

/-- **C5 (amended).** Exporting a canonical table and re-normalizing +
re-parsing the byte stream reproduces the table exactly, *provided* every
column's dtype survives the CSV trip: each column is all-integer,
all-boolean, or all CSV-stable strings (nonempty, not parseable as a
number, boolean or NA form, free of separator characters), the header
names are nonempty, strip-invariant and separator-free, and the rows are
rectangular.  In general the round trip is not the identity — `read_csv`
re-types numeric-looking text (see the counterexample). -/
theorem csv_roundtrip_of_stable_cells (t : RawTable)
    (hh : t.header ≠ [])
    (hnames : ∀ h ∈ t.header, h.data ≠ [] ∧ stripName h = h ∧
      h.data.all cleanChar = true)
    (hrect : ∀ row ∈ t.rows, row.length = t.header.length)
    (hcols : ∀ j, j < t.header.length →
      goodCol (t.rows.map (fun row => row.getD j Value.vNaN)) = true) :
    csvRoundTrip t = t := by
  -- every individual cell is good
  have hvalgood : ∀ row ∈ t.rows, ∀ v ∈ row,
      isIntVal v = true ∨ isBoolVal v = true ∨ isPlainStrVal v = true := by
    intro row hrow v hv
    obtain ⟨j, hj, hgv⟩ := List.mem_iff_getElem.mp hv
    have hj' : j < t.header.length := by rw [← hrect row hrow]; exact hj
    have hvj : row.getD j Value.vNaN = v := by
      rw [List.getD_eq_getElem _ _ hj]; exact hgv
    have hcol := hcols j hj'
    rw [goodCol, Bool.or_eq_true, Bool.or_eq_true] at hcol
    have hmem : row.getD j Value.vNaN ∈
        t.rows.map (fun row => row.getD j Value.vNaN) :=
      List.mem_map_of_mem _ hrow
    rcases hcol with (h | h) | h
    · left; rw [← hvj]; exact List.all_eq_true.mp h _ hmem
    · right; left; rw [← hvj]; exact List.all_eq_true.mp h _ hmem
    · right; right; rw [← hvj]; exact List.all_eq_true.mp h _ hmem
  have hname_clean : ∀ x ∈ t.header.map String.data, ∀ c ∈ x, cleanChar c = true := by
    intro x hx
    obtain ⟨nm, hnm, rfl⟩ := List.mem_map.mp hx
    have := (hnames nm hnm).2.2
    rw [List.all_eq_true] at this
    exact this
  have hcells_clean : ∀ row ∈ t.rows, ∀ x ∈ row.map cellChars,
      x ≠ [] ∧ ∀ c ∈ x, cleanChar c = true := by
    intro row hrow x hx
    obtain ⟨v, hv, rfl⟩ := List.mem_map.mp hx
    exact cellChars_good v (hvalgood row hrow v hv)
  -- the two kinds of lines
  have hline_free : ∀ (xss : List (List Char)),
      (∀ x ∈ xss, ∀ c ∈ x, cleanChar c = true) →
      ∀ c ∈ joinSep ',' xss, c ≠ '\n' := by
    intro xss hxss c hc
    rcases mem_joinSep ',' xss c hc with rfl | ⟨x, hx, hcx⟩
    · decide
    · exact (cleanChar_ne c (hxss x hx c hcx)).2
  have hheadpos : 0 < t.header.length := List.length_pos.mpr hh
  have hrow_ne : ∀ row ∈ t.rows, List.map cellChars row ≠ [] := by
    intro row hrow h0
    have hrnil : row = [] := by simpa using h0
    rw [hrnil] at hrow
    have := hrect [] hrow
    simp at this
    omega
  -- lines of the stream
  have hhl_ne : joinSep ',' (t.header.map String.data) ≠ [] := by
    obtain ⟨nm, rest, hrest⟩ := List.exists_cons_of_ne_nil hh
    rw [hrest, List.map_cons]
    exact joinSep_ne_nil ',' _ _ (hnames nm (by rw [hrest]; exact List.mem_cons_self _ _)).1
  have hrl_ne : ∀ row ∈ t.rows, joinSep ',' (row.map cellChars) ≠ [] := by
    intro row hrow
    obtain ⟨x, xs, hxs⟩ := List.exists_cons_of_ne_nil (hrow_ne row hrow)
    rw [hxs]
    apply joinSep_ne_nil
    have : x ∈ row.map cellChars := by rw [hxs]; exact List.mem_cons_self _ _
    exact (hcells_clean row hrow x this).1
  have hsplit : splitSep '\n' (to_csv t) =
      (joinSep ',' (t.header.map String.data) ::
        t.rows.map (fun row => joinSep ',' (row.map cellChars))) ++ [[]] := by
    rw [to_csv, flatten_lines_eq]
    apply splitSep_joinSep
    · simp
    · intro x hx c hc
      rcases List.mem_append.mp hx with hx | hx
      · rcases List.mem_cons.mp hx with rfl | hx
        · exact hline_free _ hname_clean c hc
        · obtain ⟨row, hrow, rfl⟩ := List.mem_map.mp hx
          exact hline_free _ (fun x hx => (hcells_clean row hrow x hx).2) c hc
      · rw [List.mem_singleton] at hx
        rw [hx] at hc
        simp at hc
  have hfilter : List.filter (fun l => !l.isEmpty)
        ((joinSep ',' (t.header.map String.data) ::
          t.rows.map (fun row => joinSep ',' (row.map cellChars))) ++ [[]]) =
      joinSep ',' (t.header.map String.data) ::
        t.rows.map (fun row => joinSep ',' (row.map cellChars)) := by
    rw [List.filter_append]
    have h2 : ([([] : List Char)]).filter (fun l => !l.isEmpty) = [] := rfl
    rw [h2, List.append_nil]
    apply List.filter_eq_self.mpr
    intro l hl
    rcases List.mem_cons.mp hl with rfl | hl
    · obtain ⟨c, cs, hcs⟩ := List.exists_cons_of_ne_nil hhl_ne
      rw [hcs]; rfl
    · obtain ⟨row, hrow, rfl⟩ := List.mem_map.mp hl
      obtain ⟨c, cs, hcs⟩ := List.exists_cons_of_ne_nil (hrl_ne row hrow)
      rw [hcs]; rfl
  have hparse : parse_csv (to_csv t) =
      parseLinesCsv (joinSep ',' (t.header.map String.data) ::
        t.rows.map (fun row => joinSep ',' (row.map cellChars))) := by
    rw [parse_csv, hsplit, hfilter]
  -- header cells
  have hsplithl : splitSep ',' (joinSep ',' (t.header.map String.data)) =
      t.header.map String.data := by
    apply splitSep_joinSep
    · simp [hh]
    · exact fun x hx c hc => (cleanChar_ne c (hname_clean x hx c hc)).1
  have hhdr : (splitSep ',' (joinSep ',' (t.header.map String.data))).map String.mk =
      t.header := by
    rw [hsplithl, List.map_map]
    calc t.header.map (String.mk ∘ String.data) =
        t.header.map id := List.map_congr_left (fun nm _ => stringMk_data nm)
      _ = t.header := List.map_id _
  have hncols : (splitSep ',' (joinSep ',' (t.header.map String.data))).length =
      t.header.length := by
    rw [hsplithl, List.length_map]
  -- the cell grid
  have hgrid : (t.rows.map (fun row => joinSep ',' (row.map cellChars))).map
      (splitSep ',') = t.rows.map (fun row => row.map cellChars) := by
    rw [List.map_map]
    apply List.map_congr_left
    intro row hrow
    show splitSep ',' (joinSep ',' (row.map cellChars)) = row.map cellChars
    apply splitSep_joinSep
    · exact hrow_ne row hrow
    · exact fun x hx c hc => (cleanChar_ne c ((hcells_clean row hrow x hx).2 c hc)).1
  -- reassembled rows
  have hrows : (t.rows.map (fun row => row.map cellChars)).map
      (fun row => (List.range t.header.length).map
        (fun j => typeCell (t.rows.map (fun row => row.map cellChars)) j
          (row.getD j []))) = t.rows := by
    rw [List.map_map]
    calc t.rows.map ((fun row => (List.range t.header.length).map
          (fun j => typeCell (t.rows.map (fun row => row.map cellChars)) j
            (row.getD j []))) ∘ (fun row => row.map cellChars)) =
        t.rows.map id := by
          apply List.map_congr_left
          intro row hrow
          show (List.range t.header.length).map
            (fun j => typeCell (t.rows.map (fun row => row.map cellChars)) j
              ((row.map cellChars).getD j [])) = row
          apply List.ext_getElem
          · rw [List.length_map, List.length_range, hrect row hrow]
          · intro i h1 h2
            rw [List.getElem_map, List.getElem_range]
            have hi : i < t.header.length := by
              rw [List.length_map, List.length_range] at h1
              exact h1
            rw [getD_map_cellChars row i h2,
              typeCell_roundtrip t hrect hcols i hi row hrow,
              List.getD_eq_getElem _ _ h2]
      _ = t.rows := List.map_id _
  -- assemble
  rw [csvRoundTrip, hparse, parseLinesCsv]
  rw [stripColumns]
  have hhead_final :
      ((splitSep ',' (joinSep ',' (t.header.map String.data))).map String.mk).map
        stripName = t.header := by
    rw [hhdr]
    calc t.header.map stripName = t.header.map id :=
        List.map_congr_left (fun nm hnm => (hnames nm hnm).2.1)
      _ = t.header := List.map_id _
  have hrows_final : (((t.rows.map (fun row => joinSep ',' (row.map cellChars))).map
      (splitSep ',')).map
      (fun row => (List.range
          (splitSep ',' (joinSep ',' (t.header.map String.data))).length).map
        (fun j => typeCell ((t.rows.map
            (fun row => joinSep ',' (row.map cellChars))).map (splitSep ',')) j
          (row.getD j [])))) = t.rows := by
    rw [hgrid, hncols]
    exact hrows
  cases t with
  | mk header rows =>
    congr 1

/-- A two-record canonical table with string, integer and boolean columns,
all CSV-stable. -/
def tableStable : RawTable :=
  ⟨["Customer_ID", "Season", "Sales", "Returning_Customer"],
   [[Value.vStr "C-7", Value.vStr "Winter", Value.vInt 10, Value.vBool false],
    [Value.vStr "C-8", Value.vStr "Summer", Value.vInt 25, Value.vBool true]]⟩

/-- Witness for C5 (amended) on `tableStable`. -/
theorem csv_roundtrip_of_stable_cells_witness : csvRoundTrip tableStable = tableStable :=
  csv_roundtrip_of_stable_cells tableStable (by decide) (by decide) (by decide)
    (by decide)

end ShoppingDashboard
